import Mathlib

/-!
Verification of the `confiture` native core: `hash_files` (src/hasher.rs) and
`build_schema` (src/builder.rs).

The two Rust entry points are shallowly embedded below.  File contents are
modelled as byte lists (`List Nat`, each element < 256) for the hasher and as
Lean `String`s for the builder; the filesystem is a function from path strings
to read outcomes.  SHA-256 is implemented in full (FIPS 180-4) so concrete
digests can be computed by kernel reduction.
-/

set_option maxRecDepth 100000

namespace Confiture

/-! ### SHA-256 (as provided by the `sha2` crate used in src/hasher.rs) -/

/-- The word modulus for SHA-256 arithmetic, 2^32. -/
def M32 : Nat := 4294967296

/-- Truncate to a 32-bit word. -/
def w32 (n : Nat) : Nat := n % M32

/-- Right rotation of a 32-bit word by `n` bits. -/
def rotr (n x : Nat) : Nat := w32 ((x >>> n) ||| (x <<< (32 - n)))

/-- Bitwise complement of a 32-bit word. -/
def compl32 (x : Nat) : Nat := 4294967295 ^^^ x

/-- SHA-256 round constants. -/
def K : List Nat :=
  [1116352408, 1899447441, 3049323471, 3921009573, 961987163,
   1508970993, 2453635748, 2870763221, 3624381080, 310598401,
   607225278, 1426881987, 1925078388, 2162078206, 2614888103,
   3248222580, 3835390401, 4022224774, 264347078, 604807628,
   770255983, 1249150122, 1555081692, 1996064986, 2554220882,
   2821834349, 2952996808, 3210313671, 3336571891, 3584528711,
   113926993, 338241895, 666307205, 773529912, 1294757372,
   1396182291, 1695183700, 1986661051, 2177026350, 2456956037,
   2730485921, 2820302411, 3259730800, 3345764771, 3516065817,
   3600352804, 4094571909, 275423344, 430227734, 506948616,
   659060556, 883997877, 958139571, 1322822218, 1537002063,
   1747873779, 1955562222, 2024104815, 2227730452, 2361852424,
   2428436474, 2756734187, 3204031479, 3329325298]

/-- Hash state: eight 32-bit words. -/
abbrev St : Type := Nat × Nat × Nat × Nat × Nat × Nat × Nat × Nat

/-- Initial SHA-256 hash value. -/
def H0 : St :=
  (1779033703, 3144134277, 1013904242, 2773480762,
   1359893119, 2600822924, 528734635, 1541459225)

/-- Small sigma 0 (message schedule). -/
def ssig0 (x : Nat) : Nat := rotr 7 x ^^^ rotr 18 x ^^^ (x >>> 3)

/-- Small sigma 1 (message schedule). -/
def ssig1 (x : Nat) : Nat := rotr 17 x ^^^ rotr 19 x ^^^ (x >>> 10)

/-- Big sigma 0 (round function). -/
def bsig0 (x : Nat) : Nat := rotr 2 x ^^^ rotr 13 x ^^^ rotr 22 x

/-- Big sigma 1 (round function). -/
def bsig1 (x : Nat) : Nat := rotr 6 x ^^^ rotr 11 x ^^^ rotr 25 x

/-- Choice function. -/
def ch (e f g : Nat) : Nat := (e &&& f) ^^^ (compl32 e &&& g)

/-- Majority function. -/
def maj (a b c : Nat) : Nat := (a &&& b) ^^^ (a &&& c) ^^^ (b &&& c)

/-- Group a byte list into big-endian 32-bit words, four bytes per word. -/
def bytesToWords : List Nat → List Nat
  | a :: b :: c :: d :: rest =>
      (a * 16777216 + b * 65536 + c * 256 + d) :: bytesToWords rest
  | _ => []

/-- The next message-schedule word, computed from the last 16 words. -/
def nextW (w : List Nat) : Nat :=
  w32 (ssig1 (w.getD (w.length - 2) 0) + w.getD (w.length - 7) 0 +
       ssig0 (w.getD (w.length - 15) 0) + w.getD (w.length - 16) 0)

/-- Extend the message schedule by `n` further words. -/
def extendW : Nat → List Nat → List Nat
  | 0, w => w
  | n + 1, w => extendW n (w ++ [nextW w])

/-- One SHA-256 round: fold the round constant paired with the schedule word
into the eight-word state. -/
def round (s : St) (kw : Nat × Nat) : St :=
  match s with
  | (a, b, c, d, e, f, g, h) =>
    let t1 := w32 (h + bsig1 e + ch e f g + kw.1 + kw.2)
    let t2 := w32 (bsig0 a + maj a b c)
    (w32 (t1 + t2), a, b, c, w32 (d + t1), e, f, g)

/-- Add two hash states word by word, modulo 2^32. -/
def addSt (x y : St) : St :=
  match x, y with
  | (a, b, c, d, e, f, g, h), (a', b', c', d', e', f', g', h') =>
    (w32 (a + a'), w32 (b + b'), w32 (c + c'), w32 (d + d'),
     w32 (e + e'), w32 (f + f'), w32 (g + g'), w32 (h + h'))

/-- Compress one 64-byte block into the running hash state. -/
def compressBlock (h : St) (block : List Nat) : St :=
  let w := extendW 48 (bytesToWords block)
  addSt h ((K.zip w).foldl round h)

/-- Number of zero padding bytes for a message of length `l`. -/
def padLen (l : Nat) : Nat := (64 + 55 - l % 64) % 64

/-- The 8-byte big-endian encoding of the bit length of an `n`-byte message. -/
def lenBytes8 (n : Nat) : List Nat :=
  let b := n * 8
  [b / 72057594037927936 % 256, b / 281474976710656 % 256,
   b / 1099511627776 % 256, b / 4294967296 % 256,
   b / 16777216 % 256, b / 65536 % 256, b / 256 % 256, b % 256]

/-- SHA-256 padding: append 0x80, zeros, and the 64-bit message bit length. -/
def pad (msg : List Nat) : List Nat :=
  msg ++ 0x80 :: (List.replicate (padLen msg.length) 0 ++ lenBytes8 msg.length)

/-- Split a byte list into 64-byte blocks, with explicit fuel so that the
recursion is structural (the fuel starts at the list length). -/
def blocksAux : Nat → List Nat → List (List Nat)
  | 0, _ => []
  | _, [] => []
  | n + 1, l => l.take 64 :: blocksAux n (l.drop 64)

/-- Split a byte list into 64-byte blocks. -/
def blocks (l : List Nat) : List (List Nat) := blocksAux l.length l

/-- Big-endian bytes of one 32-bit word. -/
def wBytes (x : Nat) : List Nat :=
  [x / 16777216 % 256, x / 65536 % 256, x / 256 % 256, x % 256]

/-- The 32 digest bytes of a final hash state. -/
def digestBytes : St → List Nat
  | (a, b, c, d, e, f, g, h) =>
    wBytes a ++ wBytes b ++ wBytes c ++ wBytes d ++
    wBytes e ++ wBytes f ++ wBytes g ++ wBytes h

/-- SHA-256 of a byte list, as a list of 32 bytes. -/
def sha256 (msg : List Nat) : List Nat :=
  digestBytes ((blocks (pad msg)).foldl compressBlock H0)

/-- Lowercase hexadecimal digit for a value below 16. -/
def hexDigit (n : Nat) : Char :=
  if n < 10 then Char.ofNat (48 + n) else Char.ofNat (87 + n)

/-- Lowercase hexadecimal character list of a byte list, two digits per byte. -/
def toHexData (bytes : List Nat) : List Char :=
  bytes.foldr (fun b acc => hexDigit (b / 16) :: hexDigit (b % 16) :: acc) []

/-- Lowercase hexadecimal string of a byte list, as produced by Rust's
`format` with the lower-hex specifier on a digest. -/
def toHex (bytes : List Nat) : String := String.mk (toHexData bytes)

deriving instance DecidableEq for Except

/-! ### Filesystem model -/

/-- Outcome of opening and fully reading one file as raw bytes
(src/hasher.rs).  `openErr` models `File::open` failing, `readErr` models
`read_to_end` failing; each carries the textual rendering of the underlying
I/O error. -/
inductive ReadOutcome where
  | ok (bytes : List Nat) : ReadOutcome
  | openErr (cause : String) : ReadOutcome
  | readErr (cause : String) : ReadOutcome

/-- A filesystem as seen by the hasher: each path string reads to bytes or
fails with a cause. -/
def FS : Type := String → ReadOutcome

/-- Outcome of `fs::read_to_string` on one file (src/builder.rs): either the
decoded content or the textual rendering of the error. -/
inductive StrOutcome where
  | ok (content : String) : StrOutcome
  | err (cause : String) : StrOutcome

/-- A filesystem as seen by the builder. -/
def FSs : Type := String → StrOutcome

/-! ### hash_files (src/hasher.rs) -/

/-- Per-file work of `hash_files`: open and read the file, then SHA-256 its
bytes.  A failed open or read panics via `expect`, whose message is the
`expect` text followed by the rendered I/O error — the path is not part of
the message. -/
def readHash (fs : FS) (path : String) : Except String (List Nat) :=
  match fs path with
  | .ok bytes => .ok (sha256 bytes)
  | .openErr e => .error ("Failed to open file: " ++ e)
  | .readErr e => .error ("Failed to read file: " ++ e)

/-- The parallel enumerate-and-hash step of `hash_files`, collected in index
order starting at `i`; the first per-file panic aborts the whole call. -/
def collectHashesFrom (fs : FS) (i : Nat) : List String → Except String (List (Nat × List Nat))
  | [] => .ok []
  | p :: ps =>
    match readHash fs p with
    | .error e => .error e
    | .ok h =>
      match collectHashesFrom fs (i + 1) ps with
      | .error e => .error e
      | .ok t => .ok ((i, h) :: t)

/-- Rust's stable `sort_by_key` on the original index, modelled by insertion
sort on the first component. -/
def sortByKey {α : Type} (l : List (Nat × α)) : List (Nat × α) :=
  List.insertionSort (fun a b => a.1 ≤ b.1) l

/-- The strictly sequential combine step of `hash_files`: sort the collected
per-file digests by original index, feed each into the final SHA-256
instance, hex-encode the result. -/
def combineHashes (ihs : List (Nat × List Nat)) : String :=
  toHex (sha256 ((sortByKey ihs).foldl (fun acc ih => acc ++ ih.2) []))

/-- The entry point `hash_files`: hash every file, sort the per-file digests by original
index, feed them into a final SHA-256 instance and hex-encode the result
(src/hasher.rs). -/
def hash_files (fs : FS) (files : List String) : Except String String :=
  match collectHashesFrom fs 0 files with
  | .error e => .error e
  | .ok ihs => .ok (combineHashes ihs)

/-! ### build_schema (src/builder.rs) -/

/-- Per-file content of `build_schema`: the file's text, or the inline
diagnostic marker `-- Error reading <path>: <cause>\n` when reading fails. -/
def readStr (fs : FSs) (path : String) : String :=
  match fs path with
  | .ok c => c
  | .err e => "-- Error reading " ++ path ++ ": " ++ e ++ "\n"

/-- Separator appended after one file's content: nothing when it already
ends with two newlines, one newline when it ends with a newline, two
otherwise — the `ends_with` cascade of src/builder.rs. -/
def sepFor (c : String) : String :=
  if c.data.reverse.take 2 = ['\n', '\n'] then ""
  else if c.data.reverse.take 1 = ['\n'] then "\n"
  else "\n\n"

/-- The parallel enumerate-and-read step of `build_schema`, in index order. -/
def collectContents (fs : FSs) (files : List String) : List (Nat × String) :=
  files.enum.map (fun ip => (ip.1, readStr fs ip.2))

/-- The sequential combine step of `build_schema`: sort the collected
contents by original index and concatenate each with its separator. -/
def combineSchema (ics : List (Nat × String)) : String :=
  (sortByKey ics).foldl (fun acc ic => acc ++ ic.2 ++ sepFor ic.2) ""

/-- The entry point `build_schema`: read every file (degrading failures to inline markers),
sort by original index and concatenate with the separator rule
(src/builder.rs). -/
def build_schema (fs : FSs) (files : List String) : Except String String :=
  .ok (combineSchema (collectContents fs files))

/-! ### Plumbing used to state the claims -/

/-- The byte contents of a list of paths, when every one reads successfully. -/
def readAllBytes (fs : FS) : List String → Option (List (List Nat))
  | [] => some []
  | p :: ps =>
    match fs p with
    | .ok b => (readAllBytes fs ps).map (fun cs => b :: cs)
    | _ => none

/-- The text contents of a list of paths, when every one reads successfully. -/
def readAllStr (fs : FSs) : List String → Option (List String)
  | [] => some []
  | p :: ps =>
    match fs p with
    | .ok c => (readAllStr fs ps).map (fun cs => c :: cs)
    | _ => none

/-- Executable contiguous-substring test on character lists. -/
def listContainsB (needle : List Char) : List Char → Bool
  | [] => needle.isEmpty
  | c :: t => needle.isPrefixOf (c :: t) || listContainsB needle t

/-- Executable contiguous-substring test on strings. -/
def strContainsB (needle hay : String) : Bool := listContainsB needle.data hay.data

/-- Each listed string occurs contiguously, in order, within the target
character list. -/
def subSeqIn : List (List Char) → List Char → Prop
  | [], _ => True
  | c :: cs, s => ∃ pre rest, s = pre ++ c ++ rest ∧ subSeqIn cs rest

/-- Two distinct byte strings with the same SHA-256 digest. -/
def Sha256Collision : Prop := ∃ a b : List Nat, a ≠ b ∧ sha256 a = sha256 b

/-- Reference concatenation of a content sequence: each content followed by
its separator, in order. -/
def catSchema : List String → String
  | [] => ""
  | c :: cs => c ++ sepFor c ++ catSchema cs

/-- The string ends with two consecutive newline characters. -/
def endsWithTwoNL (c : String) : Prop := ∃ t, c.data = t ++ ['\n', '\n']

/-- The string ends with exactly one newline character. -/
def endsWithOneNL (c : String) : Prop :=
  (∃ t, c.data = t ++ ['\n']) ∧ ¬ endsWithTwoNL c

/-- The string does not end with a newline character. -/
def endsWithNoNL (c : String) : Prop := ¬ ∃ t, c.data = t ++ ['\n']

/-! ### Concrete fixtures -/

/-- A builder filesystem with the two schema files of the spec's concrete
scenario; every other path fails to read. -/
def fsUsersPosts : FSs := fun p =>
  if p = "a.sql" then .ok "CREATE TABLE users (id INT);"
  else if p = "b.sql" then .ok "CREATE TABLE posts (id INT);"
  else .err "No such file or directory (os error 2)"

/-- A hasher filesystem with one-byte files "A" and "B"; every other path
fails to open. -/
def fsBytesAB : FS := fun p =>
  if p = "a.sql" then .ok [65]
  else if p = "b.sql" then .ok [66]
  else .openErr "No such file or directory (os error 2)"

/-- A hasher filesystem with exactly one readable file; every other path
fails to open, as a nonexistent path does. -/
def fsOneMissing : FS := fun p =>
  if p = "good.sql" then .ok [65]
  else .openErr "No such file or directory (os error 2)"

/-! ### Suffix and separator lemmas -/

theorem reverse_take_eq_iff_suffix (l s : List Char) :
    l.reverse.take s.length = s.reverse ↔ ∃ t, l = t ++ s := by
  constructor
  · intro h
    refine ⟨(l.reverse.drop s.length).reverse, ?_⟩
    have h2 : l.reverse = s.reverse ++ l.reverse.drop s.length := by
      conv_lhs => rw [← List.take_append_drop s.length l.reverse]
      rw [h]
    calc l = l.reverse.reverse := (List.reverse_reverse l).symm
    _ = (s.reverse ++ l.reverse.drop s.length).reverse := by rw [← h2]
    _ = (l.reverse.drop s.length).reverse ++ s := by
        rw [List.reverse_append, List.reverse_reverse]
  · rintro ⟨t, rfl⟩
    rw [List.reverse_append]
    have hl : s.reverse.length = s.length := List.length_reverse s
    rw [List.take_left' hl]

theorem suffix2_iff (l : List Char) :
    l.reverse.take 2 = ['\n', '\n'] ↔ ∃ t, l = t ++ ['\n', '\n'] :=
  reverse_take_eq_iff_suffix l ['\n', '\n']

theorem suffix1_iff (l : List Char) :
    l.reverse.take 1 = ['\n'] ↔ ∃ t, l = t ++ ['\n'] :=
  reverse_take_eq_iff_suffix l ['\n']

theorem sepFor_of_twoNL {c : String} (h : endsWithTwoNL c) : sepFor c = "" := by
  unfold sepFor
  rw [if_pos ((suffix2_iff c.data).mpr h)]

theorem sepFor_of_oneNL {c : String} (h : endsWithOneNL c) : sepFor c = "\n" := by
  unfold sepFor
  rw [if_neg (fun hh => h.2 ((suffix2_iff c.data).mp hh)),
      if_pos ((suffix1_iff c.data).mpr h.1)]

theorem sepFor_of_noNL {c : String} (h : endsWithNoNL c) : sepFor c = "\n\n" := by
  unfold sepFor
  have h2 : ¬ c.data.reverse.take 2 = ['\n', '\n'] := by
    intro hh
    rcases (suffix2_iff c.data).mp hh with ⟨t, ht⟩
    exact h ⟨t ++ ['\n'], by rw [ht, List.append_assoc]; rfl⟩
  have h1 : ¬ c.data.reverse.take 1 = ['\n'] := by
    intro hh
    exact h ((suffix1_iff c.data).mp hh)
  rw [if_neg h2, if_neg h1]

theorem chunk_endsNN (c : String) :
    ∃ t, (c ++ sepFor c).data = t ++ ['\n', '\n'] := by
  unfold sepFor
  split_ifs with h1 h2
  · rcases (suffix2_iff c.data).mp h1 with ⟨t, ht⟩
    exact ⟨t, by rw [String.data_append, ht]; simp⟩
  · rcases (suffix1_iff c.data).mp h2 with ⟨t, ht⟩
    refine ⟨t, ?_⟩
    rw [String.data_append, ht, List.append_assoc]
    rfl
  · exact ⟨c.data, by rw [String.data_append]⟩

theorem endsNN_append (pre : List Char) {l : List Char}
    (h : ∃ t, l = t ++ ['\n', '\n']) : ∃ t, pre ++ l = t ++ ['\n', '\n'] := by
  rcases h with ⟨t, rfl⟩
  exact ⟨pre ++ t, (List.append_assoc pre t _).symm⟩

/-! ### catSchema structure lemmas -/

theorem catSchema_cons (c : String) (cs : List String) :
    (catSchema (c :: cs)).data =
      c.data ++ ((sepFor c).data ++ (catSchema cs).data) := by
  show (c ++ sepFor c ++ catSchema cs).data = _
  rw [String.data_append, String.data_append, List.append_assoc]

theorem catSchema_endsNN : ∀ cs : List String, cs ≠ [] →
    ∃ t, (catSchema cs).data = t ++ ['\n', '\n']
  | [], h => absurd rfl h
  | c :: cs, _ => by
    cases cs with
    | nil =>
      rcases chunk_endsNN c with ⟨t, ht⟩
      refine ⟨t, ?_⟩
      show (c ++ sepFor c ++ catSchema []).data = _
      have hnil : (catSchema []).data = [] := rfl
      rw [String.data_append, hnil, List.append_nil, ht]
    | cons d ds =>
      rcases catSchema_endsNN (d :: ds) (by simp) with ⟨t, ht⟩
      rw [catSchema_cons]
      exact endsNN_append _ (endsNN_append _ ⟨t, ht⟩)

theorem catSchema_contains : ∀ (cs : List String) (c : String), c ∈ cs →
    ∃ pre post, (catSchema cs).data = pre ++ c.data ++ post
  | [], c, hc => absurd hc (by simp)
  | d :: ds, c, hc => by
    rcases List.mem_cons.mp hc with rfl | hmem
    · exact ⟨[], (sepFor c).data ++ (catSchema ds).data, by rw [catSchema_cons]; rfl⟩
    · rcases catSchema_contains ds c hmem with ⟨pre, post, hp⟩
      refine ⟨d.data ++ ((sepFor d).data ++ pre), post, ?_⟩
      rw [catSchema_cons, hp]
      simp [List.append_assoc]

/-! ### Ordered-substring lemmas -/

theorem subSeqIn_append_left (pre : List Char) :
    ∀ (cs : List (List Char)) (s : List Char), subSeqIn cs s → subSeqIn cs (pre ++ s)
  | [], _, _ => trivial
  | c :: cs, s, h => by
    rcases h with ⟨p, r, rfl, hr⟩
    exact ⟨pre ++ p, r, by simp [List.append_assoc], hr⟩

theorem subSeqIn_catSchema : ∀ cs : List String,
    subSeqIn (cs.map String.data) (catSchema cs).data
  | [] => trivial
  | c :: cs => by
    refine ⟨[], (sepFor c).data ++ (catSchema cs).data, ?_, ?_⟩
    · rw [catSchema_cons]
      rfl
    · exact subSeqIn_append_left _ _ _ (subSeqIn_catSchema cs)

/-! ### Index-sorting lemmas -/

theorem le_fst_of_mem_enumFrom' {α : Type} :
    ∀ {n : Nat} {l : List α} {x : Nat × α}, x ∈ List.enumFrom n l → n ≤ x.1 := by
  intro n l
  induction l generalizing n with
  | nil => intro x hx; simp [List.enumFrom] at hx
  | cons a as ih =>
    intro x hx
    rw [List.enumFrom_cons] at hx
    rcases List.mem_cons.mp hx with rfl | hmem
    · exact Nat.le_refl n
    · exact Nat.le_of_succ_le (ih hmem)

theorem pairwise_lt_enumFrom {α : Type} (n : Nat) (l : List α) :
    List.Pairwise (fun a b : Nat × α => a.1 < b.1) (List.enumFrom n l) := by
  induction l generalizing n with
  | nil => simp [List.enumFrom]
  | cons a as ih =>
    rw [List.enumFrom_cons]
    exact List.Pairwise.cons
      (fun y hy => Nat.lt_of_lt_of_le (Nat.lt_succ_self n) (le_fst_of_mem_enumFrom' hy))
      (ih (n + 1))

theorem sortByKey_sorted_id {α : Type} {l : List (Nat × α)}
    (h : List.Pairwise (fun a b : Nat × α => a.1 ≤ b.1) l) : sortByKey l = l :=
  List.Sorted.insertionSort_eq h

theorem sortByKey_of_pairwise_lt {α : Type} {l : List (Nat × α)}
    (h : List.Pairwise (fun a b : Nat × α => a.1 < b.1) l) : sortByKey l = l :=
  sortByKey_sorted_id (h.imp fun hab => Nat.le_of_lt hab)

theorem pairwise_lt_of_le_nodup {α : Type} {l : List (Nat × α)}
    (hle : List.Pairwise (fun a b : Nat × α => a.1 ≤ b.1) l)
    (hnd : (l.map Prod.fst).Nodup) :
    List.Pairwise (fun a b : Nat × α => a.1 < b.1) l := by
  have hne : List.Pairwise (fun a b : Nat × α => a.1 ≠ b.1) l :=
    List.pairwise_map.mp hnd
  exact (hle.and hne).imp fun hab => Nat.lt_of_le_of_ne hab.1 hab.2

theorem sortByKey_eq_of_perm {α : Type} {base l : List (Nat × α)}
    (hnd : (base.map Prod.fst).Nodup) (hp : l.Perm base) :
    sortByKey l = sortByKey base := by
  haveI : IsTotal (Nat × α) (fun a b => a.1 ≤ b.1) :=
    ⟨fun a b => Nat.le_total a.1 b.1⟩
  haveI : IsTrans (Nat × α) (fun a b => a.1 ≤ b.1) :=
    ⟨fun _ _ _ h1 h2 => Nat.le_trans h1 h2⟩
  haveI : IsAntisymm (Nat × α) (fun a b : Nat × α => a.1 < b.1) :=
    ⟨fun _ _ h1 h2 => absurd (Nat.lt_trans h1 h2) (Nat.lt_irrefl _)⟩
  have p1 : (sortByKey l).Perm base :=
    (List.perm_insertionSort _ l).trans hp
  have p2 : (sortByKey base).Perm base := List.perm_insertionSort _ base
  have s1 : List.Pairwise (fun a b : Nat × α => a.1 ≤ b.1) (sortByKey l) :=
    List.sorted_insertionSort _ l
  have s2 : List.Pairwise (fun a b : Nat × α => a.1 ≤ b.1) (sortByKey base) :=
    List.sorted_insertionSort _ base
  have nd1 : ((sortByKey l).map Prod.fst).Nodup :=
    ((p1.map Prod.fst).nodup_iff).mpr hnd
  have nd2 : ((sortByKey base).map Prod.fst).Nodup :=
    ((p2.map Prod.fst).nodup_iff).mpr hnd
  exact List.eq_of_perm_of_sorted (p1.trans p2.symm)
    (pairwise_lt_of_le_nodup s1 nd1) (pairwise_lt_of_le_nodup s2 nd2)

/-! ### Collect-phase lemmas -/

theorem enumFrom_map_pair {α β : Type} (f : α → β) :
    ∀ (n : Nat) (l : List α),
      (List.enumFrom n l).map (fun ip => (ip.1, f ip.2)) = List.enumFrom n (l.map f)
  | _, [] => rfl
  | n, a :: as => by
    rw [List.enumFrom_cons, List.map_cons, enumFrom_map_pair f (n + 1) as,
        List.map_cons, List.enumFrom_cons]

theorem collectContents_eq (fs : FSs) (files : List String) :
    collectContents fs files = List.enumFrom 0 (files.map (readStr fs)) := by
  unfold collectContents
  rw [show files.enum = List.enumFrom 0 files from rfl, enumFrom_map_pair]

theorem foldl_append_schema :
    ∀ (l : List (Nat × String)) (acc : String),
      l.foldl (fun acc ic => acc ++ ic.2 ++ sepFor ic.2) acc =
        acc ++ catSchema (l.map Prod.snd)
  | [], acc => by
    show acc = acc ++ catSchema []
    rw [show catSchema [] = "" from rfl, String.append_empty]
  | ic :: l, acc => by
    rw [List.foldl_cons, foldl_append_schema l, List.map_cons]
    show acc ++ ic.2 ++ sepFor ic.2 ++ _ = _
    rw [show catSchema (ic.2 :: l.map Prod.snd) =
          ic.2 ++ sepFor ic.2 ++ catSchema (l.map Prod.snd) from rfl]
    rw [String.append_assoc, String.append_assoc, String.append_assoc]

theorem foldl_append_bytes :
    ∀ (l : List (Nat × List Nat)) (acc : List Nat),
      l.foldl (fun acc ih => acc ++ ih.2) acc = acc ++ (l.map Prod.snd).flatten
  | [], acc => by simp
  | ih :: l, acc => by
    rw [List.foldl_cons, foldl_append_bytes l, List.map_cons, List.flatten_cons,
        List.append_assoc]

/-- Master equation for `build_schema`: the output is the in-order
concatenation of each file's effective content with its separator. -/
theorem build_schema_eq (fs : FSs) (files : List String) :
    build_schema fs files = .ok (catSchema (files.map (readStr fs))) := by
  unfold build_schema combineSchema
  rw [collectContents_eq,
      sortByKey_of_pairwise_lt (pairwise_lt_enumFrom 0 (files.map (readStr fs))),
      foldl_append_schema, List.enumFrom_map_snd, String.empty_append]

theorem collectHashesFrom_ok {fs : FS} :
    ∀ {ps : List String} {cs : List (List Nat)} (i : Nat),
      readAllBytes fs ps = some cs →
      collectHashesFrom fs i ps = .ok (List.enumFrom i (cs.map sha256)) := by
  intro ps
  induction ps with
  | nil =>
    intro cs i h
    simp only [readAllBytes, Option.some.injEq] at h
    subst h
    rfl
  | cons p ps ih =>
    intro cs i h
    unfold readAllBytes at h
    cases hfp : fs p with
    | ok b =>
      rw [hfp] at h
      rcases Option.map_eq_some'.mp h with ⟨cs', hcs', rfl⟩
      unfold collectHashesFrom readHash
      rw [hfp, ih (i + 1) hcs', List.map_cons, List.enumFrom_cons]
    | openErr e => rw [hfp] at h; exact absurd h (by simp)
    | readErr e => rw [hfp] at h; exact absurd h (by simp)

/-- Master equation for `hash_files` on readable inputs: the digest is the
hex encoding of SHA-256 over the concatenated per-file SHA-256 digests, in
input order. -/
theorem hash_files_eq {fs : FS} {files : List String} {cs : List (List Nat)}
    (h : readAllBytes fs files = some cs) :
    hash_files fs files = .ok (toHex (sha256 ((cs.map sha256).flatten))) := by
  unfold hash_files
  rw [collectHashesFrom_ok 0 h]
  show Except.ok (combineHashes (List.enumFrom 0 (cs.map sha256))) = _
  unfold combineHashes
  rw [sortByKey_of_pairwise_lt (pairwise_lt_enumFrom 0 (cs.map sha256)),
      foldl_append_bytes, List.enumFrom_map_snd, List.nil_append]

theorem collectHashesFrom_le {fs : FS} :
    ∀ {ps : List String} {i : Nat} {l : List (Nat × List Nat)},
      collectHashesFrom fs i ps = .ok l → ∀ x ∈ l, i ≤ x.1 := by
  intro ps
  induction ps with
  | nil =>
    intro i l h x hx
    simp only [collectHashesFrom, Except.ok.injEq] at h
    subst h
    simp at hx
  | cons p ps ih =>
    intro i l h x hx
    unfold collectHashesFrom at h
    cases hr : readHash fs p with
    | error e => rw [hr] at h; exact absurd h (by simp)
    | ok hsh =>
      rw [hr] at h
      cases ht : collectHashesFrom fs (i + 1) ps with
      | error e => rw [ht] at h; exact absurd h (by simp)
      | ok t =>
        rw [ht] at h
        simp only [Except.ok.injEq] at h
        subst h
        rcases List.mem_cons.mp hx with rfl | hmem
        · exact Nat.le_refl i
        · exact Nat.le_of_succ_le (ih ht x hmem)

theorem collectHashesFrom_pairwise {fs : FS} :
    ∀ {ps : List String} {i : Nat} {l : List (Nat × List Nat)},
      collectHashesFrom fs i ps = .ok l →
      List.Pairwise (fun a b : Nat × List Nat => a.1 < b.1) l := by
  intro ps
  induction ps with
  | nil =>
    intro i l h
    simp only [collectHashesFrom, Except.ok.injEq] at h
    subst h
    exact List.Pairwise.nil
  | cons p ps ih =>
    intro i l h
    unfold collectHashesFrom at h
    cases hr : readHash fs p with
    | error e => rw [hr] at h; exact absurd h (by simp)
    | ok hsh =>
      rw [hr] at h
      cases ht : collectHashesFrom fs (i + 1) ps with
      | error e => rw [ht] at h; exact absurd h (by simp)
      | ok t =>
        rw [ht] at h
        simp only [Except.ok.injEq] at h
        subst h
        exact List.Pairwise.cons
          (fun y hy => Nat.lt_of_lt_of_le (Nat.lt_succ_self i)
            (collectHashesFrom_le ht y hy))
          (ih ht)

/-! ### Digest shape lemmas -/

theorem wBytes_lt (x : Nat) : ∀ b ∈ wBytes x, b < 256 := by
  intro b hb
  simp only [wBytes, List.mem_cons, List.not_mem_nil, or_false] at hb
  rcases hb with h | h | h | h <;> omega

theorem digestBytes_length (s : St) : (digestBytes s).length = 32 := by
  obtain ⟨a, b, c, d, e, f, g, h⟩ := s
  rfl

theorem digestBytes_lt (s : St) : ∀ x ∈ digestBytes s, x < 256 := by
  obtain ⟨a, b, c, d, e, f, g, h⟩ := s
  have step : ∀ (l₁ l₂ : List Nat), (∀ x ∈ l₁, x < 256) → (∀ x ∈ l₂, x < 256) →
      ∀ x ∈ l₁ ++ l₂, x < 256 :=
    fun _ _ h₁ h₂ x hx => (List.mem_append.mp hx).elim (h₁ x) (h₂ x)
  exact step _ _ (step _ _ (step _ _ (step _ _ (step _ _ (step _ _ (step _ _
    (wBytes_lt a) (wBytes_lt b)) (wBytes_lt c)) (wBytes_lt d)) (wBytes_lt e))
    (wBytes_lt f)) (wBytes_lt g)) (wBytes_lt h)

theorem sha256_length (m : List Nat) : (sha256 m).length = 32 :=
  digestBytes_length _

theorem sha256_lt (m : List Nat) : ∀ b ∈ sha256 m, b < 256 :=
  digestBytes_lt _

/-! ### Hex encoding lemmas -/

/-- The sixteen lowercase hexadecimal digit characters. -/
def hexChars : List Char := "0123456789abcdef".data

theorem hexDigit_mem : ∀ n, n < 16 → hexDigit n ∈ hexChars := by decide

theorem hexDigit_inj : ∀ a, a < 16 → ∀ b, b < 16 → hexDigit a = hexDigit b → a = b := by
  decide

theorem toHexData_cons (b : Nat) (bs : List Nat) :
    toHexData (b :: bs) = hexDigit (b / 16) :: hexDigit (b % 16) :: toHexData bs :=
  rfl

theorem toHexData_length : ∀ bs : List Nat, (toHexData bs).length = 2 * bs.length
  | [] => rfl
  | b :: bs => by
    rw [toHexData_cons, List.length_cons, List.length_cons, toHexData_length bs,
        List.length_cons]
    omega

theorem toHexData_mem : ∀ (bs : List Nat), (∀ b ∈ bs, b < 256) →
    ∀ c ∈ toHexData bs, c ∈ hexChars
  | [], _, c, hc => absurd hc (by simp [toHexData])
  | b :: bs, h, c, hc => by
    rw [toHexData_cons] at hc
    have hb : b < 256 := h b (List.mem_cons_self b bs)
    rcases List.mem_cons.mp hc with rfl | hc'
    · exact hexDigit_mem _ (by omega)
    · rcases List.mem_cons.mp hc' with rfl | hc''
      · exact hexDigit_mem _ (by omega)
      · exact toHexData_mem bs (fun x hx => h x (List.mem_cons_of_mem b hx)) c hc''

theorem toHexData_inj : ∀ (A B : List Nat), (∀ a ∈ A, a < 256) → (∀ b ∈ B, b < 256) →
    toHexData A = toHexData B → A = B
  | [], [], _, _, _ => rfl
  | [], b :: bs, _, _, h => by rw [toHexData_cons] at h; exact absurd h (by simp [toHexData])
  | a :: as, [], _, _, h => by rw [toHexData_cons] at h; exact absurd h (by simp [toHexData])
  | a :: as, b :: bs, hA, hB, h => by
    rw [toHexData_cons, toHexData_cons] at h
    injection h with h1 h2
    injection h2 with h2 h3
    have ha : a < 256 := hA a (List.mem_cons_self a as)
    have hb : b < 256 := hB b (List.mem_cons_self b bs)
    have e1 : a / 16 = b / 16 := hexDigit_inj _ (by omega) _ (by omega) h1
    have e2 : a % 16 = b % 16 := hexDigit_inj _ (by omega) _ (by omega) h2
    have hab : a = b := by omega
    subst hab
    rw [toHexData_inj as bs (fun x hx => hA x (List.mem_cons_of_mem a hx))
          (fun x hx => hB x (List.mem_cons_of_mem a hx)) h3]

theorem toHex_inj {A B : List Nat} (hA : ∀ a ∈ A, a < 256) (hB : ∀ b ∈ B, b < 256)
    (h : toHex A = toHex B) : A = B :=
  toHexData_inj A B hA hB (congrArg String.data h)

/-! ### Collision-reduction lemmas -/

theorem flatten_inj32 : ∀ (L L' : List (List Nat)),
    (∀ c ∈ L, c.length = 32) → (∀ c ∈ L', c.length = 32) →
    L.flatten = L'.flatten → L = L'
  | [], [], _, _, _ => rfl
  | [], c :: cs, _, hL', h => by
    have hc : c.length = 32 := hL' c (List.mem_cons_self c cs)
    rw [List.flatten_nil, List.flatten_cons] at h
    have hlen := congrArg List.length h
    simp only [List.length_nil, List.length_append] at hlen
    omega
  | c :: cs, [], hL, _, h => by
    have hc : c.length = 32 := hL c (List.mem_cons_self c cs)
    rw [List.flatten_nil, List.flatten_cons] at h
    have hlen := congrArg List.length h
    simp only [List.length_nil, List.length_append] at hlen
    omega
  | c :: cs, d :: ds, hL, hL', h => by
    rw [List.flatten_cons, List.flatten_cons] at h
    have hlen : c.length = d.length := by
      rw [hL c (List.mem_cons_self c cs), hL' d (List.mem_cons_self d ds)]
    obtain ⟨rfl, h2⟩ := List.append_inj h hlen
    rw [flatten_inj32 cs ds (fun x hx => hL x (List.mem_cons_of_mem c hx))
          (fun x hx => hL' x (List.mem_cons_of_mem c hx)) h2]

theorem collision_of_map_eq : ∀ (l l' : List (List Nat)), l ≠ l' →
    l.map sha256 = l'.map sha256 → Sha256Collision
  | [], [], hne, _ => absurd rfl hne
  | [], _ :: _, _, h => absurd h (by simp)
  | _ :: _, [], _, h => absurd h (by simp)
  | a :: as, b :: bs, hne, h => by
    rw [List.map_cons, List.map_cons] at h
    injection h with h1 h2
    by_cases hab : a = b
    · subst hab
      have : as ≠ bs := fun hh => hne (by rw [hh])
      exact collision_of_map_eq as bs this h2
    · exact ⟨a, b, hab, h1⟩

theorem readAllStr_map {fs : FSs} :
    ∀ {files : List String} {cs : List String},
      readAllStr fs files = some cs → files.map (readStr fs) = cs := by
  intro files
  induction files with
  | nil =>
    intro cs h
    simp only [readAllStr, Option.some.injEq] at h
    subst h
    rfl
  | cons p ps ih =>
    intro cs h
    unfold readAllStr at h
    cases hfp : fs p with
    | ok c =>
      rw [hfp] at h
      rcases Option.map_eq_some'.mp h with ⟨cs', hcs', rfl⟩
      rw [List.map_cons, ih hcs']
      show (readStr fs p) :: cs' = c :: cs'
      unfold readStr
      rw [hfp]
    | err e => rw [hfp] at h; exact absurd h (by simp)

theorem nodup_keys_of_pairwise_lt {α : Type} {l : List (Nat × α)}
    (h : List.Pairwise (fun a b : Nat × α => a.1 < b.1) l) :
    (l.map Prod.fst).Nodup :=
  List.pairwise_map.mpr (h.imp fun hab => Nat.ne_of_lt hab)

/-! ### Claim theorems -/

/-- C1: at the failing input (one readable file, one nonexistent file),
`hash_files` aborts without returning any digest, but the error it fails
with — the `expect` panic message plus the rendered I/O error — does not
contain the offending path, contradicting the claim that the error
identifies the offending path.  The cause, by contrast, is present. -/
theorem hash_files_error_lacks_path :
    hash_files fsOneMissing ["good.sql", "missing.sql"] =
      .error "Failed to open file: No such file or directory (os error 2)" ∧
    strContainsB "missing.sql"
      "Failed to open file: No such file or directory (os error 2)" = false ∧
    strContainsB "No such file or directory"
      "Failed to open file: No such file or directory (os error 2)" = true := by
  refine ⟨by decide, by decide, by decide⟩

/-- C2: for readable files, `hash_files` returns the lowercase hex encoding
of SHA-256 applied to the concatenation, in input-index order, of the
per-file SHA-256 digests; concretely this two-level digest differs from the
hash of the concatenated raw bytes. -/
theorem hash_files_two_level :
    (∀ (fs : FS) (files : List String) (cs : List (List Nat)),
      readAllBytes fs files = some cs →
      hash_files fs files = .ok (toHex (sha256 ((cs.map sha256).flatten)))) ∧
    hash_files fsBytesAB ["a.sql", "b.sql"] ≠ .ok (toHex (sha256 [65, 66])) := by
  refine ⟨fun fs files cs h => hash_files_eq h, by decide⟩

/-- Witness for C2 at a concrete two-file input. -/
theorem hash_files_two_level_witness :
    hash_files fsBytesAB ["a.sql", "b.sql"] =
      .ok (toHex (sha256 (([[65], [66]].map sha256).flatten))) :=
  hash_files_two_level.1 fsBytesAB ["a.sql", "b.sql"] [[65], [66]] rfl

/-- C3: on readable files, `build_schema` appends each content followed by
its separator — nothing after two trailing newlines, one newline after
exactly one, two newlines after none, the last file included — and the
spec's concrete two-file scenario yields exactly the claimed string. -/
theorem build_schema_separator_rule :
    (∀ (fs : FSs) (files : List String) (cs : List String),
      readAllStr fs files = some cs →
      build_schema fs files = .ok (catSchema cs)) ∧
    (∀ c : String,
      (endsWithTwoNL c → sepFor c = "") ∧
      (endsWithOneNL c → sepFor c = "\n") ∧
      (endsWithNoNL c → sepFor c = "\n\n")) ∧
    build_schema fsUsersPosts ["a.sql", "b.sql"] =
      .ok "CREATE TABLE users (id INT);\n\nCREATE TABLE posts (id INT);\n\n" := by
  refine ⟨?_, ?_, by decide⟩
  · intro fs files cs h
    rw [build_schema_eq, readAllStr_map h]
  · intro c
    exact ⟨fun h => sepFor_of_twoNL h, fun h => sepFor_of_oneNL h,
           fun h => sepFor_of_noNL h⟩

/-- Witness for C3: the general part at the concrete scenario, plus each of
the three separator cases at concrete contents. -/
theorem build_schema_separator_rule_witness :
    build_schema fsUsersPosts ["a.sql", "b.sql"] =
      .ok (catSchema ["CREATE TABLE users (id INT);", "CREATE TABLE posts (id INT);"]) ∧
    sepFor "x\n\n" = "" ∧ sepFor "x\n" = "\n" ∧ sepFor "x" = "\n\n" := by
  refine ⟨build_schema_separator_rule.1 fsUsersPosts _ _ rfl, ?_, ?_, ?_⟩
  · exact (build_schema_separator_rule.2.1 "x\n\n").1 ⟨['x'], rfl⟩
  · exact (build_schema_separator_rule.2.1 "x\n").2.1
      ⟨⟨['x'], rfl⟩, fun hh => absurd ((suffix2_iff _).mpr hh) (by decide)⟩
  · exact (build_schema_separator_rule.2.1 "x").2.2
      (fun hh => absurd ((suffix1_iff _).mpr hh) (by decide))

/-- C4: `build_schema` always succeeds, and each unreadable file's content
is replaced by an inline diagnostic marker naming the failing path and its
cause. -/
theorem build_schema_best_effort :
    (∀ (fs : FSs) (files : List String), ∃ s, build_schema fs files = .ok s) ∧
    (∀ (fs : FSs) (files : List String) (p cause : String),
      p ∈ files → fs p = .err cause →
      ∃ s pre post, build_schema fs files = .ok s ∧
        s.data = pre ++
          ("-- Error reading " ++ p ++ ": " ++ cause ++ "\n").data ++ post) := by
  constructor
  · intro fs files
    exact ⟨_, build_schema_eq fs files⟩
  · intro fs files p cause hp herr
    have hmem : ("-- Error reading " ++ p ++ ": " ++ cause ++ "\n") ∈
        files.map (readStr fs) := by
      refine List.mem_map.mpr ⟨p, hp, ?_⟩
      unfold readStr
      rw [herr]
    rcases catSchema_contains _ _ hmem with ⟨pre, post, hcat⟩
    exact ⟨_, pre, post, build_schema_eq fs files, hcat⟩

/-- Witness for C4 at a concrete input with one unreadable file. -/
theorem build_schema_best_effort_witness :
    ∃ s pre post, build_schema fsUsersPosts ["a.sql", "missing.sql"] = .ok s ∧
      s.data = pre ++
        ("-- Error reading " ++ "missing.sql" ++ ": " ++
          "No such file or directory (os error 2)" ++ "\n").data ++ post :=
  build_schema_best_effort.2 fsUsersPosts ["a.sql", "missing.sql"] "missing.sql"
    "No such file or directory (os error 2)" (by simp) rfl

/-- C5: on the empty list both operations succeed, `build_schema` with the
empty string and `hash_files` with the two-level combine of zero per-file
digests, which is the lowercase hex SHA-256 digest of the empty byte
string. -/
theorem empty_list_behavior :
    ∀ (fsB : FSs) (fsH : FS),
      build_schema fsB [] = .ok "" ∧
      hash_files fsH [] = .ok (toHex (sha256 [])) ∧
      toHex (sha256 []) =
        "e3b0c44298fc1c149afbf4c8996fb92427ae41e4649b934ca495991b7852b855" :=
  fun _ _ => ⟨rfl, rfl, by decide⟩

/-- C6: two readable inputs whose content sequences differ yield different
digests unless an outright SHA-256 collision exists (the collision-
resistance caveat of the claim); concretely, swapping the one-byte files
"A", "B" changes the digest, and changing a single file's content from "A"
to "B" changes the digest. -/
theorem hash_files_sensitivity :
    (∀ (fs : FS) (ps ps' : List String) (cs cs' : List (List Nat)),
      readAllBytes fs ps = some cs → readAllBytes fs ps' = some cs' →
      cs ≠ cs' →
      hash_files fs ps ≠ hash_files fs ps' ∨ Sha256Collision) ∧
    hash_files fsBytesAB ["a.sql", "b.sql"] ≠
      hash_files fsBytesAB ["b.sql", "a.sql"] ∧
    hash_files fsBytesAB ["a.sql"] ≠ hash_files fsBytesAB ["b.sql"] := by
  refine ⟨?_, by decide, by decide⟩
  intro fs ps ps' cs cs' h h' hne
  by_cases hmap : cs.map sha256 = cs'.map sha256
  · exact Or.inr (collision_of_map_eq cs cs' hne hmap)
  · by_cases houter :
      sha256 ((cs.map sha256).flatten) = sha256 ((cs'.map sha256).flatten)
    · refine Or.inr ⟨(cs.map sha256).flatten, (cs'.map sha256).flatten, ?_, houter⟩
      intro hfl
      refine hmap (flatten_inj32 _ _ ?_ ?_ hfl) <;>
        · intro c hc
          rcases List.mem_map.mp hc with ⟨x, _, rfl⟩
          exact sha256_length x
    · left
      rw [hash_files_eq h, hash_files_eq h']
      intro hok
      simp only [Except.ok.injEq] at hok
      exact houter (toHex_inj (sha256_lt _) (sha256_lt _) hok)

/-- Witness for C6 at the concrete swapped two-file input. -/
theorem hash_files_sensitivity_witness :
    hash_files fsBytesAB ["a.sql", "b.sql"] ≠
      hash_files fsBytesAB ["b.sql", "a.sql"] ∨ Sha256Collision :=
  hash_files_sensitivity.1 fsBytesAB ["a.sql", "b.sql"] ["b.sql", "a.sql"]
    [[65], [66]] [[66], [65]] rfl rfl (by decide)

/-- C7: every digest string `hash_files` returns is exactly 64 characters
long and made only of lowercase hexadecimal digits. -/
theorem hash_files_hex_shape :
    ∀ (fs : FS) (files : List String) (s : String),
      hash_files fs files = .ok s →
      s.length = 64 ∧ ∀ c ∈ s.data, c ∈ hexChars := by
  intro fs files s h
  unfold hash_files at h
  cases hc : collectHashesFrom fs 0 files with
  | error e => rw [hc] at h; exact absurd h (by simp)
  | ok ihs =>
    rw [hc] at h
    simp only [Except.ok.injEq] at h
    subst h
    constructor
    · show (String.mk (toHexData _)).length = 64
      rw [String.length_mk, toHexData_length, sha256_length]
    · exact toHexData_mem _ (sha256_lt _)

/-- Witness for C7 at a concrete single-file input. -/
theorem hash_files_hex_shape_witness :
    ("1cd6ef71e6e0ff46ad2609d403dc3fee244417089aa4461245a4e4fe23a55e42" : String).length = 64 ∧
    ∀ c ∈ ("1cd6ef71e6e0ff46ad2609d403dc3fee244417089aa4461245a4e4fe23a55e42" : String).data,
      c ∈ hexChars :=
  hash_files_hex_shape fsBytesAB ["a.sql"]
    "1cd6ef71e6e0ff46ad2609d403dc3fee244417089aa4461245a4e4fe23a55e42" (by decide)

/-- C8: for readable files, every file's content occurs contiguously in the
`build_schema` output and the occurrences respect the input order. -/
theorem build_schema_contains_in_order :
    ∀ (fs : FSs) (files : List String) (cs : List String),
      readAllStr fs files = some cs →
      ∃ s, build_schema fs files = .ok s ∧ subSeqIn (cs.map String.data) s.data := by
  intro fs files cs h
  refine ⟨catSchema cs, ?_, subSeqIn_catSchema cs⟩
  rw [build_schema_eq, readAllStr_map h]

/-- Witness for C8 at the concrete two-file input. -/
theorem build_schema_contains_in_order_witness :
    ∃ s, build_schema fsUsersPosts ["a.sql", "b.sql"] = .ok s ∧
      subSeqIn
        (["CREATE TABLE users (id INT);", "CREATE TABLE posts (id INT);"].map String.data)
        s.data :=
  build_schema_contains_in_order fsUsersPosts ["a.sql", "b.sql"]
    ["CREATE TABLE users (id INT);", "CREATE TABLE posts (id INT);"] rfl

/-- C9: both combine stages are invariant under the completion order of the
parallel reads: feeding any permutation of the gathered (index, payload)
list into the sort-then-combine step yields the identical output, so
identical inputs always produce byte-identical results. -/
theorem completion_order_independent :
    (∀ (fs : FSs) (files : List String) (l : List (Nat × String)),
      l.Perm (collectContents fs files) →
      combineSchema l = combineSchema (collectContents fs files)) ∧
    (∀ (fs : FS) (files : List String) (i : Nat)
        (res l : List (Nat × List Nat)),
      collectHashesFrom fs i files = .ok res → l.Perm res →
      combineHashes l = combineHashes res) := by
  constructor
  · intro fs files l hp
    unfold combineSchema
    rw [sortByKey_eq_of_perm ?_ hp]
    rw [collectContents_eq]
    exact nodup_keys_of_pairwise_lt (pairwise_lt_enumFrom 0 _)
  · intro fs files i res l hok hp
    unfold combineHashes
    rw [sortByKey_eq_of_perm ?_ hp]
    exact nodup_keys_of_pairwise_lt (collectHashesFrom_pairwise hok)

/-- Witness for C9: a swapped gather order at a concrete input. -/
theorem completion_order_independent_witness :
    combineSchema
        [(1, "CREATE TABLE posts (id INT);"), (0, "CREATE TABLE users (id INT);")] =
      combineSchema (collectContents fsUsersPosts ["a.sql", "b.sql"]) :=
  completion_order_independent.1 fsUsersPosts ["a.sql", "b.sql"]
    [(1, "CREATE TABLE posts (id INT);"), (0, "CREATE TABLE users (id INT);")]
    (by decide)

/-- C10: for every non-empty input list — readable or not — the
`build_schema` output ends with two consecutive newline characters. -/
theorem build_schema_trailing_nn :
    ∀ (fs : FSs) (files : List String), files ≠ [] →
      ∃ s t, build_schema fs files = .ok s ∧ s.data = t ++ ['\n', '\n'] := by
  intro fs files hne
  have hmap : files.map (readStr fs) ≠ [] := by
    intro hh
    exact hne (List.map_eq_nil_iff.mp hh)
  rcases catSchema_endsNN _ hmap with ⟨t, ht⟩
  exact ⟨_, t, build_schema_eq fs files, ht⟩

/-- Witness for C10 at a concrete one-file input. -/
theorem build_schema_trailing_nn_witness :
    ∃ s t, build_schema fsUsersPosts ["a.sql"] = .ok s ∧
      s.data = t ++ ['\n', '\n'] :=
  build_schema_trailing_nn fsUsersPosts ["a.sql"] (by decide)

end Confiture
